import Mathlib

/-!
Shallow embedding of `src/pre/dark2flash.py`: the flash-detection pipeline
(preprocess → per-frame blob detection → cross-frame deduplication).

Modelling conventions:
* 8-bit pixel intensities are `ℕ`; a 3-channel BGR pixel is `ℕ × ℕ × ℕ`;
  an image is a `List (List _)` of rows.
* Candidate coordinates are `ℤ × ℤ`; blob-detector pixel coordinates are
  `ℕ × ℕ` (row, column), as in the source all are non-negative machine ints.
* The floating-point Euclidean distance computed by `scipy.cdist` is
  modelled exactly: the comparison `distance < cutoff` (for the
  non-negative cutoffs the parameter contract allows) is embedded as the
  equivalent exact comparison `squared-distance < cutoff²` over `ℚ`,
  which keeps the deduplicator executable; theorem statements phrase
  distances with `Real.sqrt` where the claim speaks of Euclidean distance.
* `cv2.GaussianBlur` is external library code; its per-pixel floating
  point arithmetic is approximated (fixed binomial kernel instead of the
  sigma-dependent Gaussian weights), but its shape contract — every output
  pixel is a function of the input, output geometry equals input geometry —
  is modelled exactly, and no claim depends on the blurred values. Its
  rejection of an empty input array (an OpenCV assertion raising an
  uncaught `cv2.error` inside the per-frame loop, aborting the run) is
  modelled by `gaussianBlurE`/`preprocess_imageE`, the error-aware form
  of the preprocessing step.
-/

namespace Dark2Flash

/-- The parameter record built in `main` via `argparse.Namespace`
(field names follow the source). -/
structure Param where
  crop_top : ℕ
  crop_bottom : ℕ
  crop_left : ℕ
  crop_right : ℕ
  gaussian_radius : ℚ
  threshold : ℕ
  min_blob_size : ℕ
  max_blob : ℕ
  distance_cutoff : ℚ
deriving DecidableEq, Repr

/-! ## Preprocessing (`preprocess_image`, source lines 11–21) -/

/-- Python slice `l[a : -b]` with a non-negative left index `a` and a
negative-literal right index `-b` (the source writes
`green_channel[crop_top:-crop_bottom, crop_left:-crop_right]`).
Python resolves the stop index `-b` to `len(l) - b` when `b > 0` and
clamps it below at `0`; when `b = 0` the stop index is literally `0`,
so the slice is empty. -/
def pySliceNeg (l : List α) (a b : ℕ) : List α :=
  (l.take (if b = 0 then 0 else l.length - b)).drop a

/-- `image[:, :, 1]`: extract channel index 1 (green, in OpenCV's BGR
layout) from every pixel. -/
def greenChannel (image : List (List (ℕ × ℕ × ℕ))) : List (List ℕ) :=
  image.map (·.map (fun px => px.2.1))

/-- The crop `green_channel[crop_top:-crop_bottom, crop_left:-crop_right]`. -/
def cropImage (img : List (List ℕ)) (p : Param) : List (List ℕ) :=
  (pySliceNeg img p.crop_top p.crop_bottom).map
    (fun row => pySliceNeg row p.crop_left p.crop_right)

/-- OpenCV `BORDER_REFLECT_101` index reflection (`dcb|abcd|cba`),
total on all of `ℤ`. -/
def reflect101 (n : ℕ) (i : ℤ) : ℕ :=
  if n ≤ 1 then 0
  else
    let m : ℕ := 2 * n - 2
    let r : ℕ := (i % (m : ℤ)).toNat
    if r < n then r else m - r

/-- Binomial weights `[1,4,6,4,1]` standing in for the 5-tap Gaussian
kernel (see the header note: only the shape contract of
`cv2.GaussianBlur` is claim-relevant). -/
def blurWeight : ℕ → ℕ
  | 0 => 1
  | 1 => 4
  | 2 => 6
  | 3 => 4
  | _ => 1

/-- One output pixel of the 5×5 blur at position `(i, j)`. -/
def blurAt (img : List (List ℕ)) (i j : ℕ) : ℕ :=
  (((List.range 5).map fun di =>
    ((List.range 5).map fun dj =>
      blurWeight di * blurWeight dj *
        ((img.getD (reflect101 img.length ((i : ℤ) + di - 2)) []).getD
          (reflect101 (img.getD i []).length ((j : ℤ) + dj - 2)) 0)).sum).sum) / 256

/-- `cv2.GaussianBlur(cropped_image, (5, 5), gaussian_radius)`:
dimension-preserving by construction. This total function gives the
output values on the non-error path only; the library's rejection of an
empty input array is modelled by `gaussianBlurE` below. -/
def gaussianBlur (img : List (List ℕ)) : List (List ℕ) :=
  (List.range img.length).map fun i =>
    (List.range (img.getD i []).length).map fun j => blurAt img i j

/-- The error value of the OpenCV empty-input assertion: a generic
library error, not any error class of this program (the source defines
none). -/
def cv2EmptyInputMsg : String :=
  "cv2.error: -215 Assertion failed, empty src in GaussianBlur"

/-- `cv2.GaussianBlur` with its error path: OpenCV asserts that the
input array is non-empty (no dimension zero) and raises `cv2.error`
otherwise; the per-frame loop of `main` does not catch it (its `try`
block only wraps `os.readlink`/`cv2.imread`, source lines 120–128), so
the error aborts the run. -/
def gaussianBlurE (img : List (List ℕ)) : Except String (List (List ℕ)) :=
  if img.length = 0 ∨ ∃ row ∈ img, row.length = 0 then
    Except.error cv2EmptyInputMsg
  else Except.ok (gaussianBlur img)

/-- `preprocess_image` (source lines 11–21): green channel, crop, blur.
Total form, describing the output values when the external blur
returns; `preprocess_imageE` is the error-aware form. -/
def preprocess_image (image : List (List (ℕ × ℕ × ℕ))) (p : Param) :
    List (List ℕ) :=
  gaussianBlur (cropImage (greenChannel image) p)

/-- Error-aware embedding of `preprocess_image` (source lines 11–21):
green channel, crop, then the external blur, which fails on an empty
cropped array. -/
def preprocess_imageE (image : List (List (ℕ × ℕ × ℕ))) (p : Param) :
    Except String (List (List ℕ)) :=
  gaussianBlurE (cropImage (greenChannel image) p)

/-! ## Blob detection (`process_image`, source lines 24–44) -/

/-- `cv2.threshold(image, param.threshold, 255, cv2.THRESH_BINARY)`:
OpenCV's `THRESH_BINARY` maps a pixel to `255` when its value is
*strictly greater* than the threshold and to `0` otherwise. -/
def binarize (img : List (List ℕ)) (t : ℕ) : List (List ℕ) :=
  img.map fun row => row.map fun v => if t < v then 255 else 0

/-- The foreground pixels (non-zero entries) of a binary image, as
`(row, column)` pairs in raster order. -/
def foreground (bin : List (List ℕ)) : List (ℕ × ℕ) :=
  bin.enum.flatMap fun ir =>
    ir.2.enum.filterMap fun jv =>
      if jv.2 ≠ 0 then some (ir.1, jv.1) else none

/-- 4-adjacency of pixels, the default connectivity of
`scipy.ndimage.label` (structure `generate_binary_structure(2, 1)`). -/
def adj4 (p q : ℕ × ℕ) : Bool :=
  decide ((p.1 = q.1 ∧ (p.2 + 1 = q.2 ∨ q.2 + 1 = p.2)) ∨
          (p.2 = q.2 ∧ (p.1 + 1 = q.1 ∨ q.1 + 1 = p.1)))

/-- Add to `comp` every pixel of `all` adjacent to a pixel of `comp`. -/
def grow (all comp : List (ℕ × ℕ)) : List (ℕ × ℕ) :=
  comp ++ all.filter fun q => !comp.contains q && comp.any fun r => adj4 r q

/-- Iterate `grow` to a fixpoint (fuel-bounded; fuel `all.length` always
suffices since each non-trivial step adds at least one pixel). -/
def floodIter : ℕ → List (ℕ × ℕ) → List (ℕ × ℕ) → List (ℕ × ℕ)
  | 0, _, comp => comp
  | fuel + 1, all, comp =>
    let comp' := grow all comp
    if comp'.length = comp.length then comp else floodIter fuel all comp'

/-- Split the foreground pixel list into 4-connected components,
extracting the component of the first remaining pixel each round
(matching the label order of `scipy.ndimage.label`). -/
def componentsAux : ℕ → List (ℕ × ℕ) → List (List (ℕ × ℕ))
  | 0, _ => []
  | fuel + 1, rem =>
    match rem with
    | [] => []
    | seed :: _ =>
      let comp := floodIter rem.length rem [seed]
      comp :: componentsAux fuel (rem.filter fun q => !comp.contains q)

/-- The connected components of a foreground pixel list
(`scipy.ndimage.label`, 4-connected). -/
def components (fg : List (ℕ × ℕ)) : List (List (ℕ × ℕ)) :=
  componentsAux fg.length fg

/-- `(int(centroid[1]), int(centroid[0]))`: the blob centroid in
`(x = column, y = row)` order; `scipy.center_of_mass` of a binary mask
is the exact mean of the pixel indices and Python `int()` truncates the
non-negative mean, which is floor, i.e. `ℕ` division. -/
def centroid (comp : List (ℕ × ℕ)) : ℕ × ℕ :=
  ((comp.map Prod.snd).sum / comp.length, (comp.map Prod.fst).sum / comp.length)

/-- Source lines 33–38: centroids of the components that pass the
`min_blob_size` filter (`np.sum(blob_mask)` is the component's pixel
count). -/
def survivingCentroids (img : List (List ℕ)) (p : Param) : List (ℕ × ℕ) :=
  (components (foreground (binarize img p.threshold))).filterMap fun comp =>
    if p.min_blob_size ≤ comp.length then some (centroid comp) else none

/-- `process_image` (source lines 24–44): binarize, label, size-filter,
and discard the whole frame when more than `max_blob` blobs survive
(`if len(xy_coordinates) > param.max_blob: return []`). -/
def process_image (img : List (List ℕ)) (p : Param) : List (ℕ × ℕ) :=
  if p.max_blob < (survivingCentroids img p).length then []
  else survivingCentroids img p

/-! ## Cross-frame deduplication (`postprocess_coordinates`, lines 47–74) -/

/-- Squared Euclidean distance between two integer pixel coordinates. -/
def dist2 (p q : ℤ × ℤ) : ℤ :=
  (p.1 - q.1) ^ 2 + (p.2 - q.2) ^ 2

/-- The comparison `distances[i, j] < param.distance_cutoff` of source
line 64, where `distances = cdist(coords, coords)` is the Euclidean
distance matrix: for the non-negative cutoffs the parameter contract
allows, `√d < c ↔ d² < c²`, embedded exactly over `ℚ`. -/
def closeLt (p q : ℤ × ℤ) (c : ℚ) : Bool :=
  decide ((dist2 p q : ℚ) < c ^ 2)

/-- Source lines 60–66: the `to_remove` set, built by scanning every
unordered pair `i < j` and marking **both** endpoints when their
distance is below the cutoff (here as a list of indices; only
membership is ever used). -/
def toRemove (coords : List (ℤ × ℤ)) (c : ℚ) : List ℕ :=
  (List.range coords.length).flatMap fun i =>
    ((List.range coords.length).filter fun j =>
      decide (i < j) && closeLt (coords.getD i (0, 0)) (coords.getD j (0, 0)) c).flatMap
      fun j => [i, j]

/-- Source line 69: `[flattened_coordinates[i] for i in range(num_coords)
if i not in to_remove]`. -/
def validCoordinates (flattened : List (String × (ℤ × ℤ))) (c : ℚ) :
    List (String × (ℤ × ℤ)) :=
  ((List.range flattened.length).filter fun i =>
    !decide (i ∈ toRemove (flattened.map Prod.snd) c)).map
    fun i => flattened.getD i ("", (0, 0))

/-- Source lines 49–53: flatten the per-frame candidate lists into
`(filename, coordinate)` pairs. -/
def flattenPool (all : List (String × List (ℤ × ℤ))) :
    List (String × (ℤ × ℤ)) :=
  all.flatMap fun item => item.2.map fun coord => (item.1, coord)

/-- `postprocess_coordinates` (source lines 47–74): flatten, remove
cutoff-close pairs, and return the *set* of filenames that keep at
least one coordinate (`set(filename for filename, _ in
valid_coordinates)` — the VerdictSet). -/
def postprocess_coordinates (all : List (String × List (ℤ × ℤ))) (c : ℚ) :
    Finset String :=
  ((validCoordinates (flattenPool all) c).map Prod.fst).toFinset

/-- Value-level form of the removal test of source lines 60–66: an
occurrence of coordinate `q` in the candidate pool survives iff no
*other* occurrence (the pool with one copy of `q` removed) lies within
the cutoff. `validCoordinates` is proved equal to a filter by this
predicate. -/
def keepVal (C : List (ℤ × ℤ)) (c : ℚ) (q : ℤ × ℤ) : Bool :=
  !((C.erase q).any fun r => closeLt q r c)

/-! ## Spec-modelled geometry validation (absent from the source) -/

/-- Modelled from the spec: the startup validation that the crop margins
leave a non-empty interior rectangle (`InvalidGeometry` otherwise).
No such validation exists anywhere in `src/pre/dark2flash.py`; this
definition only serves to state that absence. -/
def validGeometry (p : Param) (H W : ℕ) : Bool :=
  decide (p.crop_top + p.crop_bottom < H ∧ p.crop_left + p.crop_right < W)

/-! ## Basic lemmas -/

lemma dist2_nonneg (p q : ℤ × ℤ) : 0 ≤ dist2 p q := by
  unfold dist2; positivity

lemma dist2_comm (p q : ℤ × ℤ) : dist2 p q = dist2 q p := by
  unfold dist2; ring

lemma closeLt_comm (p q : ℤ × ℤ) (c : ℚ) : closeLt p q c = closeLt q p c := by
  unfold closeLt; rw [dist2_comm]

lemma closeLt_zero (p q : ℤ × ℤ) : closeLt p q 0 = false := by
  have h2 : (0 : ℚ) ≤ ((dist2 p q : ℤ) : ℚ) := by exact_mod_cast dist2_nonneg p q
  simp only [closeLt, decide_eq_false_iff_not, not_lt]
  exact le_trans (by norm_num) h2

lemma range_map_getD (l : List α) (d : α) :
    (List.range l.length).map (fun i => l.getD i d) = l := by
  induction l with
  | nil => rfl
  | cons a t ih =>
    have h2 : ((fun i => (a :: t).getD i d) ∘ Nat.succ) = fun i => t.getD i d :=
      funext fun i => List.getD_cons_succ
    rw [List.length_cons, List.range_succ_eq_map, List.map_cons, List.map_map, h2, ih]
    simp

lemma pySliceNeg_length (l : List α) (a b : ℕ) (hb : 1 ≤ b) :
    (pySliceNeg l a b).length = l.length - a - b := by
  have hb' : b ≠ 0 := Nat.one_le_iff_ne_zero.mp hb
  simp only [pySliceNeg, List.length_drop, List.length_take, if_neg hb']
  omega

lemma pySliceNeg_nil (l : List α) (a b : ℕ) (h : l.length ≤ a + b) :
    pySliceNeg l a b = [] := by
  rw [← List.length_eq_zero]
  simp only [pySliceNeg, List.length_drop, List.length_take]
  split <;> omega

lemma gaussianBlur_length (img : List (List ℕ)) :
    (gaussianBlur img).length = img.length := by
  simp [gaussianBlur]

lemma validCoordinates_subset (l : List (String × (ℤ × ℤ))) (c : ℚ) :
    ∀ e ∈ validCoordinates l c, e ∈ l := by
  intro e he
  simp only [validCoordinates, List.mem_map, List.mem_filter, List.mem_range] at he
  obtain ⟨i, ⟨hi, _⟩, rfl⟩ := he
  rw [List.getD_eq_getElem _ _ hi]
  exact List.getElem_mem hi

/-! ## Claim theorems -/

/-- C2: for every intensity map and parameters, if the number of connected
components surviving the `min_blob_size` filter exceeds `max_blob`, then
`process_image` returns zero candidates for that frame (the whole frame is
discarded, never a truncated list). -/
theorem C2_too_noisy_zero_candidates (img : List (List ℕ)) (p : Param)
    (h : p.max_blob < (survivingCentroids img p).length) :
    process_image img p = [] := by
  simp [process_image, h]

/-- Witness for C2: one row with three separated single-pixel blobs,
`min_blob_size = 1`, `max_blob = 1`: three surviving blobs exceed the
cap and the frame yields zero candidates. -/
theorem C2_witness :
    (⟨0, 0, 0, 0, 2, 10, 1, 1, 16⟩ : Param).max_blob <
      (survivingCentroids [[20, 0, 20, 0, 20]] ⟨0, 0, 0, 0, 2, 10, 1, 1, 16⟩).length ∧
    process_image [[20, 0, 20, 0, 20]] ⟨0, 0, 0, 0, 2, 10, 1, 1, 16⟩ = [] :=
  ⟨by decide, C2_too_noisy_zero_candidates _ _ (by decide)⟩

/-- C5 counterexample: the claim says a pixel whose intensity exactly
equals the threshold becomes foreground, but `cv2.THRESH_BINARY`
binarization is strictly greater-than: a single pixel of value 48 under
threshold 48 becomes background 0, not foreground 255. -/
theorem C5_counterexample :
    48 ≥ 48 ∧ binarize [[48]] 48 = [[0]] ∧ binarize [[48]] 48 ≠ [[255]] := by
  decide

/-- C5 amended: in the binarization step, a pixel becomes foreground
(255) exactly when its intensity is *strictly greater* than the
threshold, and background (0) otherwise; in particular a pixel whose
intensity exactly equals the threshold becomes background. -/
theorem C5_amended_binarize_strict (img : List (List ℕ)) (t i j : ℕ)
    (_hi : i < img.length) (_hj : j < (img.getD i []).length) :
    ((binarize img t).getD i []).getD j 0 =
      if t < (img.getD i []).getD j 0 then 255 else 0 := by
  unfold binarize
  have h1 : (img.map fun row => row.map fun v =>
      if t < v then (255 : ℕ) else 0).getD i [] =
      (img.getD i []).map fun v => if t < v then 255 else 0 := by
    simpa using List.getD_map img [] (n := i)
      (fun row => row.map fun v => if t < v then (255 : ℕ) else 0)
  rw [h1]
  simpa using List.getD_map (img.getD i []) 0 (n := j)
    (fun v => if t < v then (255 : ℕ) else 0)

/-- Witness for C5 amended: a 1×2 row `[48, 49]` under threshold 48 maps
to `[0, 255]`. -/
theorem C5_witness :
    0 < ([[48, 49]] : List (List ℕ)).length ∧
    0 < (([[48, 49]] : List (List ℕ)).getD 0 []).length ∧
    ((binarize [[48, 49]] 48).getD 0 []).getD 0 0 =
      (if 48 < (([[48, 49]] : List (List ℕ)).getD 0 []).getD 0 0 then 255 else 0) :=
  ⟨by decide, by decide,
    C5_amended_binarize_strict [[48, 49]] 48 0 0 (by decide) (by decide)⟩

/-- C9: with `distance_cutoff = 0` deduplication is the identity: no
distance is strictly below 0, so no candidate is ever removed — even two
candidates at the same pixel location both survive. -/
theorem C9_cutoff_zero_identity (l : List (String × (ℤ × ℤ))) :
    validCoordinates l 0 = l := by
  have ht : toRemove (l.map Prod.snd) 0 = [] := by
    unfold toRemove
    rw [List.flatMap_eq_nil_iff]
    intro i _
    have hfil : ((List.range (l.map Prod.snd).length).filter fun j =>
        decide (i < j) && closeLt ((l.map Prod.snd).getD i (0, 0))
          ((l.map Prod.snd).getD j (0, 0)) 0) = [] := by
      rw [List.filter_eq_nil_iff]
      intro j _
      simp [closeLt_zero]
    rw [hfil]
    rfl
  unfold validCoordinates
  rw [ht]
  have hp : (fun i => !decide (i ∈ ([] : List ℕ))) = fun _ : ℕ => true := by
    funext i; simp
  rw [hp, List.filter_true, range_map_getD]

/-! ## Characterization of the deduplicator -/

lemma closeLt_self_pos (p : ℤ × ℤ) (c : ℚ) (hc : 0 < c) :
    closeLt p p c = true := by
  have h0 : dist2 p p = 0 := by unfold dist2; ring
  simp only [closeLt, h0, decide_eq_true_eq, Int.cast_zero]
  positivity

lemma closeLt_iff_sqrt (p q : ℤ × ℤ) (c : ℚ) (hc : 0 ≤ c) :
    closeLt p q c = true ↔ Real.sqrt ((dist2 p q : ℤ) : ℝ) < (c : ℝ) := by
  rcases eq_or_lt_of_le hc with hc0 | hc0
  · rw [← hc0, closeLt_zero]
    simp only [Rat.cast_zero]
    exact iff_of_false (by simp) (not_lt.mpr (Real.sqrt_nonneg _))
  · have hcR : (0 : ℝ) < (c : ℝ) := by exact_mod_cast hc0
    rw [Real.sqrt_lt' hcR]
    unfold closeLt
    rw [decide_eq_true_eq]
    constructor
    · intro h; exact_mod_cast h
    · intro h; exact_mod_cast h

lemma closeLt_false_of_far (p q : ℤ × ℤ) (c : ℚ) (hc : 0 ≤ c)
    (h : (c : ℝ) ≤ Real.sqrt ((dist2 p q : ℤ) : ℝ)) :
    closeLt p q c = false := by
  rw [← Bool.not_eq_true]
  intro ht
  exact absurd ((closeLt_iff_sqrt p q c hc).mp ht) (not_lt.mpr h)

lemma mem_iff_getD (l : List α) (d : α) (a : α) :
    a ∈ l ↔ ∃ j, j < l.length ∧ l.getD j d = a := by
  rw [List.mem_iff_getElem]
  constructor
  · rintro ⟨n, hn, rfl⟩
    exact ⟨n, hn, List.getD_eq_getElem _ _ hn⟩
  · rintro ⟨j, hj, h⟩
    exact ⟨j, hj, by rw [← List.getD_eq_getElem _ d hj, h]⟩

lemma mem_eraseIdx_iff (d : α) :
    ∀ (C : List α) (i : ℕ), i < C.length →
      ∀ r, (r ∈ C.eraseIdx i ↔ ∃ j, j < C.length ∧ j ≠ i ∧ C.getD j d = r)
  | [], i, hi => by simp at hi
  | a :: t, 0, _ => by
    intro r
    rw [List.eraseIdx_cons_zero, mem_iff_getD t d r]
    constructor
    · rintro ⟨j, hj, h⟩
      exact ⟨j + 1, by simpa using hj, Nat.succ_ne_zero j,
        by rwa [List.getD_cons_succ]⟩
    · rintro ⟨j, hj, hj0, h⟩
      cases j with
      | zero => exact absurd rfl hj0
      | succ j' =>
        exact ⟨j', by simpa using hj, by rwa [List.getD_cons_succ] at h⟩
  | a :: t, i + 1, hi => by
    intro r
    rw [List.eraseIdx_cons_succ, List.mem_cons,
      mem_eraseIdx_iff d t i (by simpa using hi) r]
    constructor
    · rintro (rfl | ⟨j, hj, hji, h⟩)
      · exact ⟨0, by simp, by omega, List.getD_cons_zero⟩
      · exact ⟨j + 1, by simpa using hj, by omega,
          by rwa [List.getD_cons_succ]⟩
    · rintro ⟨j, hj, hji, h⟩
      cases j with
      | zero => exact Or.inl (by rw [List.getD_cons_zero] at h; exact h.symm)
      | succ j' =>
        exact Or.inr ⟨j', by simpa using hj, by omega,
          by rwa [List.getD_cons_succ] at h⟩

lemma perm_getD_cons_eraseIdx (d : α) :
    ∀ (l : List α) (i : ℕ), i < l.length →
      l.Perm (l.getD i d :: l.eraseIdx i)
  | [], i, hi => by simp at hi
  | a :: t, 0, _ => by
    rw [List.getD_cons_zero, List.eraseIdx_cons_zero]
  | a :: t, i + 1, hi => by
    rw [List.getD_cons_succ, List.eraseIdx_cons_succ]
    exact ((perm_getD_cons_eraseIdx d t i (by simpa using hi)).cons a).trans
      (List.Perm.swap _ _ _)

lemma perm_cons_erase_beq [BEq α] [LawfulBEq α] {a : α} {l : List α}
    (h : a ∈ l) : l.Perm (a :: l.erase a) := by
  induction l with
  | nil => exact absurd h (List.not_mem_nil a)
  | cons b t ih =>
    rcases List.mem_cons.mp h with rfl | hmem
    · rw [List.erase_cons_head]
    · by_cases hba : b = a
      · subst hba
        rw [List.erase_cons_head]
      · rw [List.erase_cons_tail (by simpa using hba)]
        exact ((ih hmem).cons b).trans (List.Perm.swap _ _ _)

lemma perm_erase_beq [BEq α] [LawfulBEq α] {l₁ l₂ : List α}
    (h : l₁.Perm l₂) (a : α) : (l₁.erase a).Perm (l₂.erase a) := by
  induction h with
  | nil => exact List.Perm.refl _
  | cons x hp ih =>
    by_cases hxa : x = a
    · subst hxa; rw [List.erase_cons_head, List.erase_cons_head]; exact hp
    · rw [List.erase_cons_tail (by simpa using hxa),
        List.erase_cons_tail (by simpa using hxa)]
      exact ih.cons x
  | swap x y l =>
    by_cases hya : y = a
    · by_cases hxa : x = a
      · rw [hya, hxa]
      · rw [hya, List.erase_cons_head,
          List.erase_cons_tail (by simpa using hxa), List.erase_cons_head]
    · by_cases hxa : x = a
      · rw [hxa, List.erase_cons_tail (by simpa using hya),
          List.erase_cons_head, List.erase_cons_head]
      · rw [List.erase_cons_tail (by simpa using hya),
          List.erase_cons_tail (by simpa using hxa),
          List.erase_cons_tail (by simpa using hxa),
          List.erase_cons_tail (by simpa using hya)]
        exact List.Perm.swap _ _ _
  | trans _ _ ih1 ih2 => exact ih1.trans ih2

lemma perm_any_eq {l₁ l₂ : List α} (h : l₁.Perm l₂) (p : α → Bool) :
    l₁.any p = l₂.any p := by
  rw [Bool.eq_iff_iff]
  simp only [List.any_eq_true]
  exact ⟨fun ⟨x, hx, hp⟩ => ⟨x, h.mem_iff.mp hx, hp⟩,
    fun ⟨x, hx, hp⟩ => ⟨x, h.mem_iff.mpr hx, hp⟩⟩

lemma mem_toRemove_iff (C : List (ℤ × ℤ)) (c : ℚ) (k : ℕ) :
    k ∈ toRemove C c ↔ k < C.length ∧ ∃ j, j < C.length ∧ j ≠ k ∧
      closeLt (C.getD k (0, 0)) (C.getD j (0, 0)) c = true := by
  unfold toRemove
  simp only [List.mem_flatMap, List.mem_filter, List.mem_range,
    Bool.and_eq_true, decide_eq_true_eq, List.mem_cons, List.not_mem_nil,
    or_false]
  constructor
  · rintro ⟨i, hi, j, ⟨hj, hij, hcl⟩, hk | hk⟩
    · subst hk; exact ⟨hi, j, hj, by omega, hcl⟩
    · subst hk; exact ⟨hj, i, hi, by omega, by rwa [closeLt_comm]⟩
  · rintro ⟨hk, j, hj, hjk, hcl⟩
    rcases lt_or_gt_of_ne hjk with hlt | hlt
    · exact ⟨j, hj, k, ⟨hk, hlt, by rwa [closeLt_comm]⟩, Or.inr rfl⟩
    · exact ⟨k, hk, j, ⟨hj, hlt, hcl⟩, Or.inl rfl⟩

lemma range_filter_map_getD (d : α) :
    ∀ (l : List α) (q : ℕ → Bool) (p : α → Bool),
      (∀ i, i < l.length → q i = p (l.getD i d)) →
      ((List.range l.length).filter q).map (fun i => l.getD i d) = l.filter p
  | [], _, _, _ => rfl
  | a :: t, q, p, h => by
    have h0 : q 0 = p a := by simpa using h 0 (by simp)
    have hcomp : ((fun i => (a :: t).getD i d) ∘ Nat.succ) =
        fun i => t.getD i d := funext fun i => List.getD_cons_succ
    have ih := range_filter_map_getD d t (q ∘ Nat.succ) p
      (fun i hi => by simpa [List.getD_cons_succ] using h (i + 1) (by simpa using hi))
    rw [List.length_cons, List.range_succ_eq_map, List.filter_cons,
      List.filter_map, apply_ite (List.map fun i => (a :: t).getD i d),
      List.map_cons, List.map_map, hcomp, ih, List.filter_cons, h0,
      List.getD_cons_zero]

lemma decide_mem_toRemove_eq (C : List (ℤ × ℤ)) (c : ℚ) (i : ℕ)
    (hi : i < C.length) :
    decide (i ∈ toRemove C c) =
      ((C.erase (C.getD i (0, 0))).any fun r =>
        closeLt (C.getD i (0, 0)) r c) := by
  have hmem : C.getD i (0, 0) ∈ C := by
    rw [List.getD_eq_getElem _ _ hi]; exact List.getElem_mem hi
  have hperm : (C.eraseIdx i).Perm (C.erase (C.getD i (0, 0))) :=
    ((perm_getD_cons_eraseIdx (0, 0) C i hi).symm.trans
      (perm_cons_erase_beq hmem)).cons_inv
  rw [Bool.eq_iff_iff, decide_eq_true_eq, mem_toRemove_iff, List.any_eq_true]
  constructor
  · rintro ⟨_, j, hj, hji, hcl⟩
    refine ⟨C.getD j (0, 0), ?_, hcl⟩
    exact hperm.mem_iff.mp
      ((mem_eraseIdx_iff (0, 0) C i hi _).mpr ⟨j, hj, hji, rfl⟩)
  · rintro ⟨r, hr, hcl⟩
    obtain ⟨j, hj, hji, hjr⟩ :=
      (mem_eraseIdx_iff (0, 0) C i hi r).mp (hperm.mem_iff.mpr hr)
    exact ⟨hi, j, hj, hji, by rwa [hjr]⟩

lemma validCoordinates_eq_filter (l : List (String × (ℤ × ℤ))) (c : ℚ) :
    validCoordinates l c =
      l.filter fun e => keepVal (l.map Prod.snd) c e.2 := by
  unfold validCoordinates
  apply range_filter_map_getD
  intro i hi
  have hlen : i < (l.map Prod.snd).length := by simpa using hi
  have h2 : (l.map Prod.snd).getD i (0, 0) = (l.getD i ("", (0, 0))).2 :=
    List.getD_map l ("", (0, 0)) Prod.snd
  unfold keepVal
  rw [← h2, ← decide_mem_toRemove_eq (l.map Prod.snd) c i hlen]

/-- C10: a `TooNoisy` frame (more surviving blobs than `max_blob`), a
frame whose blobs all fall below `min_blob_size`, and a frame with no
foreground at all, all make `process_image` return the same value: the
empty candidate list — indistinguishable downstream; and a frame all of
whose pool entries carry an empty candidate list can never enter the
VerdictSet. -/
theorem C10_empty_indistinguishable
    (img₁ img₂ img₃ : List (List ℕ)) (p : Param)
    (pool : List (String × List (ℤ × ℤ))) (f : String) (c : ℚ)
    (h₁ : p.max_blob < (survivingCentroids img₁ p).length)
    (h₂ : ∀ comp ∈ components (foreground (binarize img₂ p.threshold)),
      comp.length < p.min_blob_size)
    (h₃ : foreground (binarize img₃ p.threshold) = [])
    (hf : ∀ e ∈ pool, e.1 = f → e.2 = []) :
    process_image img₁ p = [] ∧ process_image img₂ p = [] ∧
    process_image img₃ p = [] ∧ f ∉ postprocess_coordinates pool c := by
  refine ⟨by simp [process_image, h₁], ?_, ?_, ?_⟩
  · have hs : survivingCentroids img₂ p = [] := by
      unfold survivingCentroids
      rw [List.filterMap_eq_nil_iff]
      intro comp hc
      rw [if_neg (not_le.mpr (h₂ comp hc))]
    simp [process_image, hs]
  · have hs : survivingCentroids img₃ p = [] := by
      unfold survivingCentroids
      rw [h₃]
      rfl
    simp [process_image, hs]
  · intro hmem
    simp only [postprocess_coordinates, List.mem_toFinset, List.mem_map] at hmem
    obtain ⟨e, he, hef⟩ := hmem
    have hel : e ∈ flattenPool pool := validCoordinates_subset _ _ e he
    simp only [flattenPool, List.mem_flatMap, List.mem_map] at hel
    obtain ⟨item, hitem, coord, hcoord, rfl⟩ := hel
    rw [hf item hitem hef] at hcoord
    exact absurd hcoord (List.not_mem_nil coord)

/-- Witness for C10: a too-noisy row (three 2-pixel blobs, cap 1), a row
with only 1-pixel blobs under `min_blob_size = 2`, a row with no
foreground, and a pool where frame `f` has an empty candidate list. -/
theorem C10_witness :
    ((⟨0, 0, 0, 0, 2, 10, 2, 1, 16⟩ : Param).max_blob <
      (survivingCentroids [[20, 20, 0, 20, 20, 0, 20, 20]]
        ⟨0, 0, 0, 0, 2, 10, 2, 1, 16⟩).length) ∧
    (∀ comp ∈ components (foreground (binarize [[20, 0, 20]]
      (⟨0, 0, 0, 0, 2, 10, 2, 1, 16⟩ : Param).threshold)),
      comp.length < (⟨0, 0, 0, 0, 2, 10, 2, 1, 16⟩ : Param).min_blob_size) ∧
    (foreground (binarize [[0, 0]]
      (⟨0, 0, 0, 0, 2, 10, 2, 1, 16⟩ : Param).threshold) = []) ∧
    (∀ e ∈ [("f", ([] : List (ℤ × ℤ))), ("g", [((1 : ℤ), (1 : ℤ))])],
      e.1 = "f" → e.2 = []) ∧
    (process_image [[20, 20, 0, 20, 20, 0, 20, 20]] ⟨0, 0, 0, 0, 2, 10, 2, 1, 16⟩ = [] ∧
     process_image [[20, 0, 20]] ⟨0, 0, 0, 0, 2, 10, 2, 1, 16⟩ = [] ∧
     process_image [[0, 0]] ⟨0, 0, 0, 0, 2, 10, 2, 1, 16⟩ = [] ∧
     "f" ∉ postprocess_coordinates [("f", []), ("g", [(1, 1)])] 16) :=
  ⟨by decide, by decide, by decide, by decide,
    C10_empty_indistinguishable _ _ _ _ _ _ _
      (by decide) (by decide) (by decide) (by decide)⟩

/-- C3 counterexample: with `crop_bottom = 0` (a value the parameter
contract allows) the Python slice `[crop_top : -crop_bottom]` is
`[crop_top : 0]`, which is empty: a 4×4 frame cropped with margins
`top = 1, bottom = 0, left = 1, right = 0` yields 0 rows, not the
claimed `4 - 1 - 0 = 3`. -/
theorem C3_counterexample :
    (preprocess_image (List.replicate 4 (List.replicate 4 (1, 2, 3)))
      ⟨1, 0, 1, 0, 2, 10, 1, 1, 16⟩).length ≠ 4 - 1 - 0 := by
  decide

/-- C3 amended: the output-dimension formula
`(H - crop_top - crop_bottom, W - crop_left - crop_right)` holds for
every frame whenever `crop_bottom ≥ 1` and `crop_right ≥ 1`; it fails
for `crop_bottom = 0` or `crop_right = 0`, where the negative-index
Python slice produces an empty axis instead. -/
theorem C3_amended_crop_dims (image : List (List (ℕ × ℕ × ℕ))) (p : Param)
    (W : ℕ) (hW : ∀ row ∈ image, row.length = W)
    (hb : 1 ≤ p.crop_bottom) (hr : 1 ≤ p.crop_right) :
    (preprocess_image image p).length =
      image.length - p.crop_top - p.crop_bottom ∧
    ∀ row ∈ preprocess_image image p,
      row.length = W - p.crop_left - p.crop_right := by
  have hcrop_len : (cropImage (greenChannel image) p).length =
      image.length - p.crop_top - p.crop_bottom := by
    simp only [cropImage, List.length_map, pySliceNeg_length _ _ _ hb,
      greenChannel]
  have hcrop_rows : ∀ r ∈ cropImage (greenChannel image) p,
      r.length = W - p.crop_left - p.crop_right := by
    intro r hr'
    simp only [cropImage, List.mem_map] at hr'
    obtain ⟨r0, hr0, rfl⟩ := hr'
    rw [pySliceNeg_length _ _ _ hr]
    have hg : r0 ∈ greenChannel image :=
      List.mem_of_mem_take (List.mem_of_mem_drop hr0)
    simp only [greenChannel, List.mem_map] at hg
    obtain ⟨row0, hrow0, rfl⟩ := hg
    simp [hW row0 hrow0]
  constructor
  · rw [preprocess_image, gaussianBlur_length, hcrop_len]
  · intro row hrow
    simp only [preprocess_image, gaussianBlur, List.mem_map, List.mem_range]
      at hrow
    obtain ⟨i, hi, rfl⟩ := hrow
    simp only [List.length_map, List.length_range]
    apply hcrop_rows
    rw [List.getD_eq_getElem _ _ hi]
    exact List.getElem_mem hi

/-- Witness for C3 amended: a 4×4 frame with margins 1/1/1/1 yields a
2×2 intensity map. -/
theorem C3_witness :
    (∀ row ∈ List.replicate 4 (List.replicate 4 ((1 : ℕ), (2 : ℕ), (3 : ℕ))),
      row.length = 4) ∧
    1 ≤ (⟨1, 1, 1, 1, 2, 10, 1, 1, 16⟩ : Param).crop_bottom ∧
    1 ≤ (⟨1, 1, 1, 1, 2, 10, 1, 1, 16⟩ : Param).crop_right ∧
    ((preprocess_image (List.replicate 4 (List.replicate 4 (1, 2, 3)))
        ⟨1, 1, 1, 1, 2, 10, 1, 1, 16⟩).length = 4 - 1 - 1 ∧
      ∀ row ∈ preprocess_image (List.replicate 4 (List.replicate 4 (1, 2, 3)))
        ⟨1, 1, 1, 1, 2, 10, 1, 1, 16⟩, row.length = 4 - 1 - 1) :=
  ⟨by decide, by decide, by decide,
    C3_amended_crop_dims _ _ 4 (by decide) (by decide) (by decide)⟩

/-- C6 counterexample: the code contains no startup geometry validation
and no `InvalidGeometry` error class at all: crop parameters whose
margins exceed the frame (`crop_top = 5` on a 4-row frame — rejected by
the spec-modelled `validGeometry`) are not caught before processing;
the empty cropped array reaches the external `cv2.GaussianBlur` call
inside the per-frame loop, which fails with a generic uncaught library
assertion — during frame processing, not at startup, and not typed
`InvalidGeometry`. -/
theorem C6_counterexample :
    validGeometry ⟨5, 0, 1, 1, 2, 10, 1, 1, 16⟩ 4 4 = false ∧
    preprocess_imageE (List.replicate 4 (List.replicate 4 (1, 2, 3)))
      ⟨5, 0, 1, 1, 2, 10, 1, 1, 16⟩ = Except.error cv2EmptyInputMsg := by
  constructor
  · decide
  · rfl

/-- C6 amended: the code never validates geometry and defines no
`InvalidGeometry` error class: for every configuration whose crop
margins leave an empty or negative-sized interior rectangle — whether
the rows are exhausted or the columns are — the spec-modelled startup
validation would reject it, but the code instead crops to an empty
array and fails only when the first processed frame reaches the
external `cv2.GaussianBlur` call, whose generic empty-input assertion
is not caught by the per-frame `try` block and aborts the run
mid-batch. -/
theorem C6_amended_no_geometry_failure (image : List (List (ℕ × ℕ × ℕ)))
    (p : Param) (W : ℕ) (hW : ∀ row ∈ image, row.length = W)
    (h : image.length ≤ p.crop_top + p.crop_bottom ∨
      W ≤ p.crop_left + p.crop_right) :
    validGeometry p image.length W = false ∧
    preprocess_imageE image p = Except.error cv2EmptyInputMsg := by
  constructor
  · simp only [validGeometry, decide_eq_false_iff_not, not_and, not_lt]
    intro h1
    rcases h with h | h <;> omega
  · have hcond : (cropImage (greenChannel image) p).length = 0 ∨
        ∃ row ∈ cropImage (greenChannel image) p, row.length = 0 := by
      rcases h with hrow | hcol
      · left
        have hz : pySliceNeg (greenChannel image) p.crop_top p.crop_bottom = [] :=
          pySliceNeg_nil _ _ _ (by simpa [greenChannel] using hrow)
        simp [cropImage, hz]
      · by_cases hc : cropImage (greenChannel image) p = []
        · left
          rw [hc]
          rfl
        · right
          obtain ⟨r, hr⟩ := List.exists_mem_of_ne_nil _ hc
          refine ⟨r, hr, ?_⟩
          simp only [cropImage, List.mem_map] at hr
          obtain ⟨r0, hr0, rfl⟩ := hr
          have hg : r0 ∈ greenChannel image :=
            List.mem_of_mem_take (List.mem_of_mem_drop hr0)
          simp only [greenChannel, List.mem_map] at hg
          obtain ⟨row0, hrow0, rfl⟩ := hg
          rw [pySliceNeg_nil]
          · rfl
          · simpa [hW row0 hrow0] using hcol
    unfold preprocess_imageE gaussianBlurE
    rw [if_pos hcond]

/-- Witness for C6 amended: a 4×4 frame with column margins
`crop_left = crop_right = 3` (empty-by-columns interior, rows
non-empty): the spec-modelled validation rejects it and the embedded
run fails with the external library error. -/
theorem C6_witness :
    (∀ row ∈ List.replicate 4 (List.replicate 4 ((1 : ℕ), (2 : ℕ), (3 : ℕ))),
      row.length = 4) ∧
    ((List.replicate 4 (List.replicate 4 ((1 : ℕ), (2 : ℕ), (3 : ℕ)))).length ≤
        (⟨1, 1, 3, 3, 2, 10, 1, 1, 16⟩ : Param).crop_top +
        (⟨1, 1, 3, 3, 2, 10, 1, 1, 16⟩ : Param).crop_bottom ∨
      4 ≤ (⟨1, 1, 3, 3, 2, 10, 1, 1, 16⟩ : Param).crop_left +
        (⟨1, 1, 3, 3, 2, 10, 1, 1, 16⟩ : Param).crop_right) ∧
    (validGeometry ⟨1, 1, 3, 3, 2, 10, 1, 1, 16⟩
        (List.replicate 4 (List.replicate 4 ((1 : ℕ), (2 : ℕ), (3 : ℕ)))).length 4 = false ∧
      preprocess_imageE (List.replicate 4 (List.replicate 4 (1, 2, 3)))
        ⟨1, 1, 3, 3, 2, 10, 1, 1, 16⟩ = Except.error cv2EmptyInputMsg) :=
  ⟨by decide, by decide,
    C6_amended_no_geometry_failure _ _ 4 (by decide) (by decide)⟩

/-- C1: for every candidate pool and non-negative cutoff, the
deduplication loop of `postprocess_coordinates` marks index `i` for
removal exactly when some *other* candidate lies at Euclidean distance
strictly below `distance_cutoff` (so both members of every close pair
are marked, a pair at exactly the cutoff survives, and no candidate is
ever removed by comparison with itself). -/
theorem C1_removed_iff_euclid_close (C : List (ℤ × ℤ)) (c : ℚ) (hc : 0 ≤ c)
    (i : ℕ) (hi : i < C.length) :
    i ∈ toRemove C c ↔ ∃ j, j < C.length ∧ j ≠ i ∧
      Real.sqrt ((dist2 (C.getD i (0, 0)) (C.getD j (0, 0)) : ℤ) : ℝ) <
        (c : ℝ) := by
  rw [mem_toRemove_iff]
  constructor
  · rintro ⟨_, j, hj, hji, hcl⟩
    exact ⟨j, hj, hji, (closeLt_iff_sqrt _ _ _ hc).mp hcl⟩
  · rintro ⟨j, hj, hji, hsq⟩
    exact ⟨hi, j, hj, hji, (closeLt_iff_sqrt _ _ _ hc).mpr hsq⟩

/-- Witness for C1: candidates `(100,100)` and `(100,115)` under cutoff
16 (distance 15): index 0 is marked for removal. -/
theorem C1_witness :
    (0 : ℚ) ≤ 16 ∧ 0 < ([((100 : ℤ), (100 : ℤ)), (100, 115)] : List (ℤ × ℤ)).length ∧
    (0 ∈ toRemove [(100, 100), (100, 115)] 16 ↔ ∃ j,
      j < ([((100 : ℤ), (100 : ℤ)), (100, 115)] : List (ℤ × ℤ)).length ∧ j ≠ 0 ∧
      Real.sqrt ((dist2 (([((100 : ℤ), (100 : ℤ)), (100, 115)] :
          List (ℤ × ℤ)).getD 0 (0, 0))
        (([((100 : ℤ), (100 : ℤ)), (100, 115)] : List (ℤ × ℤ)).getD j (0, 0)) : ℤ) : ℝ) <
        ((16 : ℚ) : ℝ)) :=
  ⟨by norm_num, by decide,
    C1_removed_iff_euclid_close [(100, 100), (100, 115)] 16 (by norm_num) 0
      (by decide)⟩

/-- C7: deduplication is idempotent: applying the removal pass a second
time to the surviving candidates removes nothing more — any two distinct
survivors are at distance at least the cutoff, otherwise both would
already have been removed in the first pass. -/
theorem C7_dedup_idempotent (l : List (String × (ℤ × ℤ))) (c : ℚ) :
    validCoordinates (validCoordinates l c) c = validCoordinates l c := by
  have hB := validCoordinates_eq_filter l c
  rw [validCoordinates_eq_filter (validCoordinates l c) c,
    List.filter_eq_self]
  intro e he
  by_contra hfalse
  rw [Bool.not_eq_true] at hfalse
  simp only [keepVal, Bool.not_eq_false'] at hfalse
  rw [List.any_eq_true] at hfalse
  obtain ⟨r, hr, hclose⟩ := hfalse
  rw [hB, List.mem_filter] at he
  obtain ⟨hel, hkeep⟩ := he
  have hsub : ((validCoordinates l c).map Prod.snd).Sublist (l.map Prod.snd) := by
    rw [hB]; exact (List.filter_sublist l).map Prod.snd
  have hrm : r ∈ (l.map Prod.snd).erase e.2 :=
    List.Sublist.mem hr (hsub.erase e.2)
  have hcontra : ((l.map Prod.snd).erase e.2).any
      (fun x => closeLt e.2 x c) = true :=
    List.any_eq_true.mpr ⟨r, hrm, hclose⟩
  simp only [keepVal, Bool.not_eq_true'] at hkeep
  rw [hkeep] at hcontra
  cases hcontra

/-- C8: deduplication is order-independent: permuting the candidate pool
permutes the surviving candidates and leaves the VerdictSet (the set of
filenames with a surviving candidate) unchanged. -/
theorem C8_dedup_order_independent (l l' : List (String × (ℤ × ℤ))) (c : ℚ)
    (h : l.Perm l') :
    (validCoordinates l c).Perm (validCoordinates l' c) ∧
    ((validCoordinates l c).map Prod.fst).toFinset =
      ((validCoordinates l' c).map Prod.fst).toFinset := by
  have hs : (l.map Prod.snd).Perm (l'.map Prod.snd) := h.map _
  have hfilter : validCoordinates l' c =
      l'.filter fun e => keepVal (l.map Prod.snd) c e.2 := by
    rw [validCoordinates_eq_filter]
    apply List.filter_congr
    intro e _
    unfold keepVal
    rw [perm_any_eq (perm_erase_beq hs e.2)]
  have hperm : (validCoordinates l c).Perm (validCoordinates l' c) := by
    rw [validCoordinates_eq_filter l c, hfilter]
    exact h.filter _
  exact ⟨hperm, List.toFinset_eq_of_perm _ _ (hperm.map Prod.fst)⟩

/-- Witness for C8: a two-candidate pool and its reversal produce
permuted survivor lists and the same VerdictSet. -/
theorem C8_witness :
    (([("A", ((0 : ℤ), (0 : ℤ))), ("B", (50, 50))] :
        List (String × (ℤ × ℤ))).Perm
      [("B", (50, 50)), ("A", (0, 0))]) ∧
    ((validCoordinates [("A", (0, 0)), ("B", (50, 50))] 16).Perm
        (validCoordinates [("B", (50, 50)), ("A", (0, 0))] 16) ∧
      ((validCoordinates [("A", (0, 0)), ("B", (50, 50))] 16).map
          Prod.fst).toFinset =
        ((validCoordinates [("B", (50, 50)), ("A", (0, 0))] 16).map
          Prod.fst).toFinset) :=
  ⟨by decide, C8_dedup_order_independent _ _ 16 (by decide)⟩

/-- C4 counterexample: the end-to-end scenario fails when
`distance_cutoff = 0`, a value the parameter contract allows: frames A
and B hold the same candidate `(100,100)` and frame C holds `(500,500)`
(at distance at least the cutoff from both, since every distance is
`≥ 0`), yet the VerdictSet is `{A, B, C}`, not `{C}`, because no
distance is strictly below 0 and nothing is removed. -/
theorem C4_counterexample :
    (0 : ℝ) ≤ Real.sqrt ((dist2 (100, 100) (500, 500) : ℤ) : ℝ) ∧
    postprocess_coordinates
      [("A", [(100, 100)]), ("B", [(100, 100)]), ("C", [(500, 500)])] 0 ≠
      {"C"} :=
  ⟨Real.sqrt_nonneg _, by decide⟩

/-- C4 amended: the end-to-end scenario holds for every *strictly
positive* cutoff: if frames `fA` and `fB` each produce exactly one
candidate at the same pixel location and frame `fC` one candidate at
Euclidean distance at least the cutoff from it, the VerdictSet is
exactly `{fC}`; and in general a frame enters the VerdictSet iff at
least one of its candidates survives deduplication. -/
theorem C4_amended_verdict_scenario (fA fB fC : String) (p q : ℤ × ℤ)
    (c : ℚ) (hc : 0 < c)
    (hd : (c : ℝ) ≤ Real.sqrt ((dist2 p q : ℤ) : ℝ)) :
    postprocess_coordinates [(fA, [p]), (fB, [p]), (fC, [q])] c = {fC} ∧
    ∀ (pool : List (String × List (ℤ × ℤ))) (g : String),
      g ∈ postprocess_coordinates pool c ↔
        ∃ e ∈ validCoordinates (flattenPool pool) c, e.1 = g := by
  have h1 : closeLt p p c = true := closeLt_self_pos p c hc
  have h2 : closeLt p q c = false := closeLt_false_of_far p q c hc.le hd
  have h3 : closeLt q p c = false := by rw [closeLt_comm]; exact h2
  have hpq : p ≠ q := by
    intro he
    rw [← he] at h2
    rw [h1] at h2
    cases h2
  constructor
  · have hfl : flattenPool [(fA, [p]), (fB, [p]), (fC, [q])] =
        [(fA, p), (fB, p), (fC, q)] := rfl
    unfold postprocess_coordinates
    rw [hfl, validCoordinates_eq_filter]
    have hC : ([(fA, p), (fB, p), (fC, q)].map Prod.snd) = [p, p, q] := rfl
    rw [hC]
    have hkp : keepVal [p, p, q] c p = false := by
      unfold keepVal
      rw [List.erase_cons_head]
      simp [h1]
    have hkq : keepVal [p, p, q] c q = true := by
      unfold keepVal
      rw [List.erase_cons_tail (by simpa using hpq),
        List.erase_cons_tail (by simpa using hpq), List.erase_cons_head]
      simp [h3]
    simp [List.filter_cons, hkp, hkq]
  · intro pool g
    simp only [postprocess_coordinates, List.mem_toFinset, List.mem_map]

/-- Witness for C4 amended: frames A, B at `(100,100)`, frame C at
`(500,500)`, cutoff 16: the VerdictSet is exactly `{C}`. -/
theorem C4_witness :
    (0 : ℚ) < 16 ∧
    ((16 : ℚ) : ℝ) ≤ Real.sqrt ((dist2 (100, 100) (500, 500) : ℤ) : ℝ) ∧
    postprocess_coordinates
      [("A", [(100, 100)]), ("B", [(100, 100)]), ("C", [(500, 500)])] 16 =
      {"C"} := by
  have hd : ((16 : ℚ) : ℝ) ≤
      Real.sqrt ((dist2 (100, 100) (500, 500) : ℤ) : ℝ) := by
    have h320 : ((dist2 (100, 100) (500, 500) : ℤ) : ℝ) = 320000 := by
      unfold dist2; norm_num
    rw [h320, show ((16 : ℚ) : ℝ) = 16 from by norm_num,
      Real.le_sqrt (by norm_num) (by norm_num)]
    norm_num
  exact ⟨by norm_num, hd,
    (C4_amended_verdict_scenario "A" "B" "C" (100, 100) (500, 500) 16
      (by norm_num) hd).1⟩

end Dark2Flash
